import Mathlib

/-!
# conan-detect: a shallow embedding of `main.go`

The program walks a directory tree `<base>/<package>/<version>/data.path`, follows the
pointer file to a YAML document and extracts the first entry of its `sources` mapping.

Modelling conventions.

* The operating system and the YAML library are external to the repository; they are
  collected in a `World` record of read-only functions.
* A Go `*yaml.Node` is an `Option Node` (`none` is the nil pointer).
* A Go function returning `(T, error)` is a function into `Outcome E T`, which has a
  third constructor `abort` for a run-time panic (nil dereference, index out of range):
  a panic is not an `error` value and it unwinds through every caller.
* Go `int` is 64-bit two's complement.  Sums and differences that can leave the range
  are wrapped with `wrapInt64`; indices and counters bounded by `len(packages)` are not.
* The text printed by `listPackageInfo` is modelled as a list of `Event`s, one per
  `Printf`/`Println`, plus one `call` event per invocation of the single-package pipeline.
-/

namespace ConanDetect

/-! ## YAML nodes (`gopkg.in/yaml.v3`) -/

/-- The `yaml.Kind` of a node; `zero` is the kind of the zero-value `yaml.Node`. -/
inductive YamlKind where
  | zero
  | DocumentNode
  | SequenceNode
  | MappingNode
  | ScalarNode
  | AliasNode
  deriving DecidableEq, Repr

/-- The fields of `yaml.Node` the program reads: `Kind`, `Value` and `Content`. -/
inductive Node where
  | mk (Kind : YamlKind) (Value : String) (Content : List Node)

namespace Node

/-- Field `Kind` of a `yaml.Node`. -/
def Kind : Node → YamlKind
  | mk k _ _ => k

/-- Field `Value` of a `yaml.Node`. -/
def Value : Node → String
  | mk _ v _ => v

/-- Field `Content` of a `yaml.Node`. -/
def Content : Node → List Node
  | mk _ _ c => c

/-- The zero value `var node yaml.Node`. -/
def zeroValue : Node := mk YamlKind.zero "" []

/-- A scalar node with the given text. -/
def scalar (s : String) : Node := mk YamlKind.ScalarNode s []

/-- A sequence node with the given elements. -/
def sequence (xs : List Node) : Node := mk YamlKind.SequenceNode "" xs

/-- A mapping node; `Content` alternates keys and values. -/
def mapping (kvs : List Node) : Node := mk YamlKind.MappingNode "" kvs

/-- A document node wrapping its root. -/
def document (root : Node) : Node := mk YamlKind.DocumentNode "" [root]

end Node

/-! ## Results of Go calls -/

/-- A run-time panic of the Go program. -/
inductive Panic where
  | nilDereference
  | indexOutOfRange
  deriving DecidableEq, Repr

/-- The result of a Go call with signature `(T, error)`: a value, an `error`, or a panic. -/
inductive Outcome (ε α : Type) where
  | ok (a : α)
  | error (e : ε)
  | abort (p : Panic)

namespace Outcome

/-- Sequencing: an `error` or a panic of the first step ends the computation. -/
def andThen {ε α β : Type} (x : Outcome ε α) (f : α → Outcome ε β) : Outcome ε β :=
  match x with
  | ok a => f a
  | error e => error e
  | abort p => abort p

/-- Re-wrapping of the error (`fmt.Errorf("...: %v", err)`); panics pass through. -/
def mapError {ε ε' α : Type} (g : ε → ε') (x : Outcome ε α) : Outcome ε' α :=
  match x with
  | ok a => ok a
  | error e => error (g e)
  | abort p => abort p

/-- Lifting of an external call, which returns a value or an error and never panics. -/
def ofExcept {ε ε' α : Type} (g : ε → ε') (x : Except ε α) : Outcome ε' α :=
  match x with
  | Except.ok a => ok a
  | Except.error e => error (g e)

/-- Whether the call returned an `error` value. -/
def isError {ε α : Type} : Outcome ε α → Bool
  | error _ => true
  | _ => false

/-- Whether the call panicked. -/
def isAbort {ε α : Type} : Outcome ε α → Bool
  | abort _ => true
  | _ => false

end Outcome

/-- Slice indexing `xs[i]`, which panics when `i` is out of range. -/
def index {ε α : Type} (xs : List α) (i : Int) : Outcome ε α :=
  if i < 0 then Outcome.abort Panic.indexOutOfRange
  else
    match xs.get? i.toNat with
    | some x => Outcome.ok x
    | none => Outcome.abort Panic.indexOutOfRange

/-! ## Errors -/

/-- The two errors of `getValueByKey`. -/
inductive KeyError where
  /-- `node is not a mapping node: %v` -/
  | notMapping (node : Node)
  /-- `key not found: %s` -/
  | keyNotFound (key : String)

/-- The errors of `readPackageInfoWithReturn`, one constructor per `fmt.Errorf`. -/
inductive PkgError where
  /-- `package %s does not exist` -/
  | packageNotExist (packageName : String)
  /-- `failed to read version directories: %v` -/
  | readVersionsFailed (err : String)
  /-- `no versions found for package %s` -/
  | noVersionsFound (packageName : String)
  /-- `no version directories found for package %s` -/
  | noVersionDirectories (packageName : String)
  /-- `failed to read data.path: %v %s` -/
  | readDataPathFailed (err : String) (dataPathFile : String)
  /-- `failed to read file content: %v %s` -/
  | readContentFailed (err : String) (filePath : String)
  /-- `failed to parse YAML content: %v %s` -/
  | parseFailed (err : String) (filePath : String)
  /-- `failed to get sources: %v` -/
  | getSourcesFailed (err : KeyError)
  /-- `sources first version is not a mapping node: %v` -/
  | versionNotMapping (versionMap : Node)
  /-- `failed to get url: %v` -/
  | getUrlFailed (err : KeyError)
  /-- `unsupported URL format: %v` -/
  | unsupportedUrl (kind : YamlKind)

/-! ## The record -/

/-- The Go struct `pkgInfo`; a nil `firstUrls` slice is the empty list. -/
structure pkgInfo where
  pkgName : String
  firstVersion : String
  firstUrls : List String

/-! ## `getValueByKey` -/

/-- The loop of `getValueByKey`: `Content` is scanned two nodes at a time, the node at the
even position is compared with `key` and the node after it returned.  A `Content` of odd
length whose last node matches makes `node.Content[i+1]` panic. -/
def getValueByKeyLoop (key : String) : List Node → Outcome KeyError Node
  | [] => Outcome.error (KeyError.keyNotFound key)
  | [k] =>
    if k.Value = key then Outcome.abort Panic.indexOutOfRange
    else Outcome.error (KeyError.keyNotFound key)
  | k :: v :: rest =>
    if k.Value = key then Outcome.ok v else getValueByKeyLoop key rest

/-- The Go function `getValueByKey`; `node.Kind` on a nil pointer panics. -/
def getValueByKey (node : Option Node) (key : String) : Outcome KeyError Node :=
  match node with
  | none => Outcome.abort Panic.nilDereference
  | some n =>
    if n.Kind ≠ YamlKind.MappingNode then Outcome.error (KeyError.notMapping n)
    else getValueByKeyLoop key n.Content

/-! ## The extraction step of `readPackageInfoWithReturn` (lines 165-196) -/

/-- Lines 165-168: `root` stays nil unless `node` is a document with content. -/
def documentRoot (node : Node) : Option Node :=
  if node.Kind = YamlKind.DocumentNode ∧ node.Content.length > 0 then node.Content.head?
  else none

/-- Lines 186-195: the `switch urlNode.Kind`. -/
def collectUrls (info : pkgInfo) (urlNode : Node) : Outcome PkgError pkgInfo :=
  match urlNode.Kind with
  | YamlKind.SequenceNode =>
    Outcome.ok { info with firstUrls := info.firstUrls ++ urlNode.Content.map Node.Value }
  | YamlKind.ScalarNode =>
    Outcome.ok { info with firstUrls := info.firstUrls ++ [urlNode.Value] }
  | k => Outcome.error (PkgError.unsupportedUrl k)

/-- Lines 165-196 of `readPackageInfoWithReturn`: everything after `yaml.Unmarshal`.
`info` is the record under construction and `node` the unmarshalled `yaml.Node`. -/
def extractInfo (info : pkgInfo) (node : Node) : Outcome PkgError pkgInfo :=
  ((getValueByKey (documentRoot node) "sources").mapError PkgError.getSourcesFailed).andThen
    fun sources =>
  (index sources.Content 0).andThen fun versionKey =>
  let info := { info with firstVersion := versionKey.Value }
  (index sources.Content 1).andThen fun versionMap =>
  if versionMap.Kind ≠ YamlKind.MappingNode then
    Outcome.error (PkgError.versionNotMapping versionMap)
  else
    ((getValueByKey (some versionMap) "url").mapError PkgError.getUrlFailed).andThen
      fun urlNode =>
    collectUrls info urlNode

/-! ## The outside world -/

/-- An `os.DirEntry`: the two methods the program calls. -/
structure DirEntry where
  Name : String
  IsDir : Bool

/-- What a `bufio.Scanner` over a freshly opened file yields: the text of the first
token when the first `Scan()` is true, and otherwise the value of `scanner.Err()`. -/
structure Scanned where
  firstLine : Option String
  scanErr : Option String

/-- The file system and the YAML library, as the program observes them. -/
structure World where
  /-- `filepath.Join` -/
  Join : List String → String
  /-- `os.IsNotExist(err)` for the `err` of `os.Stat(path)` -/
  StatNotExist : String → Bool
  /-- `os.ReadDir` -/
  ReadDir : String → Except String (List DirEntry)
  /-- `os.Open` followed by `bufio.NewScanner` -/
  Open : String → Except String Scanned
  /-- `os.ReadFile` -/
  ReadFile : String → Except String String
  /-- `yaml.Unmarshal(content, &node)` on a zero `node`: the error, or `node` afterwards -/
  Unmarshal : String → Except String Node

/-- The Go function `readFilePath`; the error is rendered as text. -/
def readFilePath (w : World) (pathFile : String) : Except String String :=
  match w.Open pathFile with
  | Except.error err => Except.error err
  | Except.ok file =>
    match file.firstLine with
    | some text => Except.ok text
    | none =>
      match file.scanErr with
      | some err => Except.error err
      | none => Except.error "data.path is empty"

/-- The Go function `readFileContent`. -/
def readFileContent (w : World) (filePath : String) : Except String String :=
  match w.ReadFile filePath with
  | Except.error err => Except.error err
  | Except.ok content => Except.ok content

/-! ## Version selection (lines 127-141) -/

/-- Lines 131-137: the `for _, v := range versions` loop with its `break`. -/
def firstVersionDir : List DirEntry → Option DirEntry
  | [] => none
  | v :: rest => if v.IsDir then some v else firstVersionDir rest

/-- Lines 127-141: the emptiness check, the loop and the nil check. -/
def selectVersion (packageName : String) (versions : List DirEntry) :
    Outcome PkgError DirEntry :=
  if versions.length = 0 then Outcome.error (PkgError.noVersionsFound packageName)
  else
    match firstVersionDir versions with
    | none => Outcome.error (PkgError.noVersionDirectories packageName)
    | some firstVersion => Outcome.ok firstVersion

/-! ## `readPackageInfoWithReturn` -/

/-- Lines 116-163: from the package name to the unmarshalled document. -/
def loadDocument (w : World) (packageName directory : String) : Outcome PkgError Node :=
  let packageDir := w.Join [directory, packageName]
  if w.StatNotExist packageDir then Outcome.error (PkgError.packageNotExist packageName)
  else
    (Outcome.ofExcept PkgError.readVersionsFailed (w.ReadDir packageDir)).andThen
      fun versions =>
    (selectVersion packageName versions).andThen fun firstVersion =>
    let versionName := firstVersion.Name
    let dataPathFile := w.Join [packageDir, versionName, "data.path"]
    (Outcome.ofExcept (fun err => PkgError.readDataPathFailed err dataPathFile)
      (readFilePath w dataPathFile)).andThen fun filePath =>
    (Outcome.ofExcept (fun err => PkgError.readContentFailed err filePath)
      (readFileContent w filePath)).andThen fun content =>
    Outcome.ofExcept (fun err => PkgError.parseFailed err filePath) (w.Unmarshal content)

/-- The Go function `readPackageInfoWithReturn`. -/
def readPackageInfoWithReturn (w : World) (packageName directory : String) :
    Outcome PkgError pkgInfo :=
  let info : pkgInfo := { pkgName := packageName, firstVersion := "", firstUrls := [] }
  (loadDocument w packageName directory).andThen fun node => extractInfo info node

/-! ## `listPackageInfo` -/

/-- Reduction of an integer to the range of a 64-bit two's complement Go `int`. -/
def wrapInt64 (x : Int) : Int := (x + 2 ^ 63) % 2 ^ 64 - 2 ^ 63

/-- The largest Go `int`. -/
def maxInt64 : Int := 2 ^ 63 - 1

/-- The smallest Go `int`. -/
def minInt64 : Int := -(2 ^ 63)

/-- The Go function `strings.HasPrefix`.  Both strings are compared character by
character; for well-formed UTF-8 this is the byte-wise comparison Go performs. -/
def HasPrefix (s pre : String) : Bool := pre.data.isPrefixOf s.data

/-- The literal of line 280. -/
def githubPrefix : String := "https://github.com/"

/-- Line 280: the condition under which `githubCount` is incremented. -/
def isGithubFirst (info : pkgInfo) : Bool :=
  match info.firstUrls with
  | [] => false
  | url :: _ => HasPrefix url githubPrefix

/-- What `listPackageInfo` does that is visible from outside: every `Printf`/`Println`
and every call of `readPackageInfoWithReturn`. -/
inductive Event where
  /-- `Failed to read packages directory: %v` -/
  | readDirFailed (err : String)
  /-- `No packages found` -/
  | noPackagesFound
  /-- `Invalid start position: %d (total packages: %d)` -/
  | invalidStart (start total : Int)
  /-- `Listing packages %d to %d (total: %d) in directory: %s` -/
  | listing (first last total : Int) (directory : String)
  /-- `=== Package %d: %s ===` -/
  | packageHeader (number : Int) (name : String)
  /-- the call `readPackageInfoWithReturn(pkg.Name(), directory)` -/
  | call (packageName directory : String)
  /-- `Error: %v` -/
  | printError (err : PkgError)
  /-- `fmt.Println()` -/
  | blankLine
  /-- `fmt.Println(pkgInfo)` -/
  | printInfo (info : pkgInfo)
  /-- `=== Statistics ===` -/
  | statsHeader
  /-- `Packages with first URL starting with https://github.com/: %d/%d` -/
  | statsGithub (githubCount denominator : Int)
  /-- `Packages with errors: %d/%d` -/
  | statsErrors (errorCount denominator : Int)

/-- The local variables of the loop of `listPackageInfo` and the output so far. -/
structure ListState where
  out : List Event
  githubCount : Int
  errorCount : Int

/-- Lines 257-260: the end index.  `start+count` is a Go `int` addition. -/
def endIndex (start count total : Int) : Int :=
  if count ≥ 0 ∧ wrapInt64 (start + count) < total then wrapInt64 (start + count)
  else total

/-- Lines 268-283: one iteration of the loop, for the entry `pkg` at index `i`.  The
second component is the panic that ended the iteration, if any; `continue` and the
normal end of the body both lead to `i++`. -/
def loopBody (w : World) (directory : String) (i : Int) (pkg : DirEntry) (st : ListState) :
    ListState × Option Panic :=
  if pkg.IsDir then
    let st := { st with out := st.out ++
      [Event.packageHeader (i + 1) pkg.Name, Event.call pkg.Name directory] }
    match readPackageInfoWithReturn w pkg.Name directory with
    | Outcome.error err =>
      ({ st with out := st.out ++ [Event.printError err, Event.blankLine],
                 errorCount := st.errorCount + 1 }, none)
    | Outcome.ok info =>
      ({ st with out := st.out ++ [Event.printInfo info],
                 githubCount :=
                   if isGithubFirst info then st.githubCount + 1 else st.githubCount }, none)
    | Outcome.abort p => (st, some p)
  else (st, none)

/-- Lines 267-284: the loop `for i := start; i < end; i++`, from index `i` in state `st`.
The second component is the panic that ended the run, if any. -/
def listLoop (w : World) (packages : List DirEntry) (directory : String) (end_ : Int)
    (i : Int) (st : ListState) : ListState × Option Panic :=
  if i < end_ then
    match (index packages i : Outcome Unit DirEntry) with
    | Outcome.ok pkg =>
      match loopBody w directory i pkg st with
      | (st, none) => listLoop w packages directory end_ (i + 1) st
      | (st, some p) => (st, some p)
    | Outcome.error _ => (st, some Panic.indexOutOfRange)
    | Outcome.abort p => (st, some p)
  else (st, none)
termination_by (end_ - i).toNat
decreasing_by all_goals omega

/-- A finished or aborted run of `listPackageInfo`. -/
structure Run where
  out : List Event
  aborted : Option Panic

/-- Lines 286-292: the statistics block after the loop. -/
def printStatistics (countGithub : Bool) (start end_ : Int) (st : ListState) : Run :=
  if countGithub then
    { out := st.out ++
        [Event.statsHeader,
         Event.statsGithub st.githubCount (wrapInt64 (end_ - start)),
         Event.statsErrors st.errorCount (wrapInt64 (end_ - start))],
      aborted := none }
  else { out := st.out, aborted := none }

/-- The Go function `listPackageInfo`. -/
def listPackageInfo (w : World) (start count : Int) (countGithub : Bool)
    (directory : String) : Run :=
  match w.ReadDir directory with
  | Except.error err => { out := [Event.readDirFailed err], aborted := none }
  | Except.ok packages =>
    if packages.length = 0 then { out := [Event.noPackagesFound], aborted := none }
    else if start < 0 ∨ start ≥ packages.length then
      { out := [Event.invalidStart start packages.length], aborted := none }
    else
      let end_ := endIndex start count packages.length
      let st : ListState :=
        { out := [Event.listing (start + 1) end_ packages.length directory],
          githubCount := 0, errorCount := 0 }
      match listLoop w packages directory end_ start st with
      | (st, some p) => { out := st.out, aborted := some p }
      | (st, none) => printStatistics countGithub start end_ st

/-! ## Vocabulary of the statements -/

/-- The `Content` of a mapping node with the given key/value pairs. -/
def flattenPairs : List (Node × Node) → List Node
  | [] => []
  | kv :: rest => kv.1 :: kv.2 :: flattenPairs rest

/-- The node `n` is a mapping and `value` is the value of its first pair whose key has
the text `key`. -/
def MappingHas (n : Node) (key : String) (value : Node) : Prop :=
  n.Kind = YamlKind.MappingNode ∧
  ∃ (before : List (Node × Node)) (k : Node) (after : List Node),
    n.Content = flattenPairs before ++ k :: value :: after ∧
    k.Value = key ∧ ∀ kv ∈ before, kv.1.Value ≠ key

/-- The entries of a listing at the indices `i` with `start ≤ i < end_`. -/
def entriesInRange (packages : List DirEntry) (start end_ : Int) : List DirEntry :=
  (packages.drop start.toNat).take (end_ - start).toNat

/-- The loop of `listPackageInfo` over an explicit list of entries, the first of which
has index `i`. -/
def processEntries (w : World) (directory : String) :
    List DirEntry → Int → ListState → ListState × Option Panic
  | [], _, st => (st, none)
  | pkg :: rest, i, st =>
    match loopBody w directory i pkg st with
    | (st, none) => processEntries w directory rest (i + 1) st
    | (st, some p) => (st, some p)

/-- The package names with which a trace calls the single-package pipeline, in order. -/
def pipelineCalls (out : List Event) : List String :=
  out.filterMap fun e =>
    match e with
    | Event.call name _ => some name
    | _ => none

/-- The `=== Package %d: %s ===` headers of a trace, in order. -/
def packageHeaders (out : List Event) : List (Int × String) :=
  out.filterMap fun e =>
    match e with
    | Event.packageHeader number name => some (number, name)
    | _ => none

/-- The directory entries of a list of consecutive entries whose first has index `i`,
each with its 1-based number. -/
def numberedDirs : List DirEntry → Int → List (Int × String)
  | [], _ => []
  | pkg :: rest, i =>
    if pkg.IsDir then (i + 1, pkg.Name) :: numberedDirs rest (i + 1)
    else numberedDirs rest (i + 1)

/-- The pipeline returned a record whose first URL starts with `https://github.com/`. -/
def succeededWithGithubFirst (o : Outcome PkgError pkgInfo) : Bool :=
  match o with
  | Outcome.ok info => isGithubFirst info
  | _ => false

/-- The entry is a directory whose pipeline returned a record with a GitHub first URL. -/
def countsAsGithub (w : World) (directory : String) (e : DirEntry) : Bool :=
  e.IsDir && succeededWithGithubFirst (readPackageInfoWithReturn w e.Name directory)

/-- The entry is a directory whose pipeline returned an error value. -/
def countsAsError (w : World) (directory : String) (e : DirEntry) : Bool :=
  e.IsDir && (readPackageInfoWithReturn w e.Name directory).isError

/-- The entry is a directory whose pipeline panics. -/
def abortsOn (w : World) (directory : String) (e : DirEntry) : Bool :=
  e.IsDir && (readPackageInfoWithReturn w e.Name directory).isAbort

/-- Whether an event is one of the three lines of the statistics block. -/
def Event.isStatistics : Event → Bool
  | Event.statsHeader => true
  | Event.statsGithub _ _ => true
  | Event.statsErrors _ _ => true
  | _ => false

/-! ## Concrete worlds used in the examples -/

/-- A finite file system and a finite table of parsed YAML texts.  `dirs` maps a
directory to its listing, `pointers` a `data.path` file to its first line, `files` a
file to its content and `yaml` a content to the `yaml.Node` that `Unmarshal` fills in
(a content missing from the table is rejected by the parser). -/
def tableWorld (dirs : List (String × List DirEntry)) (pointers files : List (String × String))
    (yaml : List (String × Node)) : World where
  Join := fun parts => "/".intercalate parts
  StatNotExist := fun path => (dirs.lookup path).isNone
  ReadDir := fun path =>
    match dirs.lookup path with
    | some entries => Except.ok entries
    | none => Except.error "no such file or directory"
  Open := fun path =>
    match pointers.lookup path with
    | some line => Except.ok { firstLine := some line, scanErr := none }
    | none => Except.error "no such file or directory"
  ReadFile := fun path =>
    match files.lookup path with
    | some content => Except.ok content
    | none => Except.error "no such file or directory"
  Unmarshal := fun content =>
    match yaml.lookup content with
    | some node => Except.ok node
    | none => Except.error "yaml: did not find expected node content"

/-- The document `sources: { "<version>": { url: <url> } }`. -/
def sourcesDoc (version : String) (url : Node) : Node :=
  Node.document (Node.mapping [Node.scalar "sources",
    Node.mapping [Node.scalar version, Node.mapping [Node.scalar "url", url]]])

/-- A directory entry that is a directory. -/
def dir (name : String) : DirEntry := { Name := name, IsDir := true }

/-- A directory entry that is a regular file. -/
def file (name : String) : DirEntry := { Name := name, IsDir := false }

/-- The text of a `conandata.yml` with one version and a scalar `url`. -/
def zlibYaml : String :=
  "sources:\n  \"1.2.0\":\n    url: \"https://example.com/a.tar.gz\"\n"

/-- A tree with the single package `zlib`, whose first directory entry is a file. -/
def zlibWorld : World :=
  tableWorld
    [("temp-ver", [dir "zlib"]),
     ("temp-ver/zlib", [file "README.md", dir "1.2.0", dir "1.3.1"])]
    [("temp-ver/zlib/1.2.0/data.path", "recipes/zlib/all/conandata.yml")]
    [("recipes/zlib/all/conandata.yml", zlibYaml)]
    [(zlibYaml, sourcesDoc "1.2.0" (Node.scalar "https://example.com/a.tar.gz"))]

/-- The text of a `conandata.yml` whose `url` is a sequence of two mirrors. -/
def mirrorsYaml : String :=
  "sources:\n  \"2.0\":\n    url:\n      - \"https://a/x\"\n      - \"https://b/y\"\n"

/-- A tree with the single package `fmt`, whose `url` is a sequence. -/
def mirrorsWorld : World :=
  tableWorld
    [("temp-ver", [dir "fmt"]), ("temp-ver/fmt", [dir "2.0"])]
    [("temp-ver/fmt/2.0/data.path", "recipes/fmt/all/conandata.yml")]
    [("recipes/fmt/all/conandata.yml", mirrorsYaml)]
    [(mirrorsYaml,
      sourcesDoc "2.0" (Node.sequence [Node.scalar "https://a/x", Node.scalar "https://b/y"]))]

/-! ## Further vocabulary and example trees -/

/-- The record under construction when the extraction step starts. -/
def freshInfo : pkgInfo := { pkgName := "zlib", firstVersion := "", firstUrls := [] }

/-- The state in which the loop of `listPackageInfo` starts. -/
def initialState (start end_ total : Int) (directory : String) : ListState :=
  { out := [Event.listing (start + 1) end_ total directory], githubCount := 0, errorCount := 0 }

/-- How `listPackageInfo` ends, given the result of its loop. -/
def finish (countGithub : Bool) (start end_ : Int) (r : ListState × Option Panic) : Run :=
  match r with
  | (st, some p) => { out := st.out, aborted := some p }
  | (st, none) => printStatistics countGithub start end_ st

/-- A tree under `base` with the given top-level entries.  Each recipe
`(name, text, node)` is a package directory `base/name` with the single version `1.0`,
whose pointer file names `recipes/name/conandata.yml`, whose content is `text`; the
parser turns `text` into `node`, or rejects it when `node` is `none`. -/
def recipeTree (base : String) (entries : List DirEntry)
    (recipes : List (String × String × Option Node)) : World :=
  tableWorld
    ((base, entries) :: recipes.map fun r => (base ++ "/" ++ r.1, [dir "1.0"]))
    (recipes.map fun r =>
      (base ++ "/" ++ r.1 ++ "/1.0/data.path", "recipes/" ++ r.1 ++ "/conandata.yml"))
    (recipes.map fun r => ("recipes/" ++ r.1 ++ "/conandata.yml", r.2.1))
    (recipes.filterMap fun r => r.2.2.map fun node => (r.2.1, node))

/-- A recipe with one version `1.0` and the given `url` node. -/
def recipe (name text : String) (url : Node) : String × String × Option Node :=
  (name, text, some (sourcesDoc "1.0" url))

/-- Two package directories; the `conandata.yml` of the first is `sources: {}`. -/
def emptySourcesWorld : World :=
  recipeTree "temp-ver" [dir "a", dir "b"]
    [("a", "sources: \x7b\x7d\n",
        some (Node.document (Node.mapping [Node.scalar "sources", Node.mapping []]))),
     recipe "b" "sources:\n  \"1.0\":\n    url: https://example.com/b.tgz\n"
       (Node.scalar "https://example.com/b.tgz")]

/-- Two package directories; the `conandata.yml` of the first is an empty file, which
`yaml.Unmarshal` accepts without touching `node`. -/
def emptyFileWorld : World :=
  recipeTree "temp-ver" [dir "a", dir "b"]
    [("a", "", some Node.zeroValue),
     recipe "b" "sources:\n  \"1.0\":\n    url: https://example.com/b.tgz\n"
       (Node.scalar "https://example.com/b.tgz")]

/-- Two package directories; the `conandata.yml` of the first is malformed. -/
def malformedWorld : World :=
  recipeTree "temp-ver" [dir "a", dir "b"]
    [("a", "sources: [\n", none),
     recipe "b" "sources:\n  \"1.0\":\n    url: https://example.com/b.tgz\n"
       (Node.scalar "https://example.com/b.tgz")]

/-- A base directory with a regular file before its only package directory. -/
def readmeWorld : World :=
  recipeTree "temp-ver" [file "README.md", dir "zlib"]
    [recipe "zlib" "sources:\n  \"1.0\":\n    url: https://example.com/zlib.tgz\n"
       (Node.scalar "https://example.com/zlib.tgz")]

/-- A base directory with five package directories. -/
def fiveWorld : World :=
  recipeTree "temp-ver" [dir "p1", dir "p2", dir "p3", dir "p4", dir "p5"]
    [recipe "p1" "sources:\n  \"1.0\":\n    url: u1\n" (Node.scalar "u1"),
     recipe "p2" "sources:\n  \"1.0\":\n    url: u2\n" (Node.scalar "u2"),
     recipe "p3" "sources:\n  \"1.0\":\n    url: u3\n" (Node.scalar "u3"),
     recipe "p4" "sources:\n  \"1.0\":\n    url: u4\n" (Node.scalar "u4"),
     recipe "p5" "sources:\n  \"1.0\":\n    url: u5\n" (Node.scalar "u5")]

/-- The top-level entries of `githubWorld`. -/
def githubEntries : List DirEntry :=
  [dir "gh", file "README.md", dir "nourl", dir "broken", dir "mirror", dir "plain",
   dir "upper"]

/-- One package with a GitHub first URL and five that must not be counted: no URL at
all, a malformed file, a GitHub URL in second position, the `http` scheme, and another
letter case. -/
def githubWorld : World :=
  recipeTree "temp-ver" githubEntries
    [recipe "gh" "sources:\n  \"1.0\":\n    url: https://github.com/madler/zlib/v1.tgz\n"
       (Node.scalar "https://github.com/madler/zlib/v1.tgz"),
     recipe "nourl" "sources:\n  \"1.0\":\n    url: []\n" (Node.sequence []),
     ("broken", "sources: [\n", none),
     recipe "mirror"
       "sources:\n  \"1.0\":\n    url:\n      - https://example.com/m.tgz\n      - https://github.com/m/m.tgz\n"
       (Node.sequence [Node.scalar "https://example.com/m.tgz",
          Node.scalar "https://github.com/m/m.tgz"]),
     recipe "plain" "sources:\n  \"1.0\":\n    url: http://github.com/p/p.tgz\n"
       (Node.scalar "http://github.com/p/p.tgz"),
     recipe "upper" "sources:\n  \"1.0\":\n    url: https://GitHub.com/u/u.tgz\n"
       (Node.scalar "https://GitHub.com/u/u.tgz")]

/-- A base directory without entries. -/
def emptyWorld : World := recipeTree "temp-ver" [] []

/-! ## Lemmas on the YAML walk -/

theorem getValueByKeyLoop_flattenPairs (key : String) (k v : Node) (after : List Node)
    (hk : k.Value = key) :
    ∀ before : List (Node × Node), (∀ kv ∈ before, kv.1.Value ≠ key) →
      getValueByKeyLoop key (flattenPairs before ++ k :: v :: after) = Outcome.ok v := by
  intro before
  induction before with
  | nil =>
    intro _
    simp [flattenPairs, getValueByKeyLoop, hk]
  | cons kv rest ih =>
    intro h
    have hne : kv.1.Value ≠ key := h kv (List.mem_cons_self _ _)
    have hrest : ∀ kv' ∈ rest, kv'.1.Value ≠ key :=
      fun kv' hmem => h kv' (List.mem_cons_of_mem _ hmem)
    simp [flattenPairs, getValueByKeyLoop, hne, ih hrest]

theorem getValueByKey_of_mappingHas (n : Node) (key : String) (value : Node)
    (h : MappingHas n key value) : getValueByKey (some n) key = Outcome.ok value := by
  obtain ⟨hkind, before, k, after, hcontent, hk, hbefore⟩ := h
  simp [getValueByKey, hkind, hcontent, getValueByKeyLoop_flattenPairs key k value after hk
    before hbefore]

theorem documentRoot_of_document (node root : Node) (others : List Node)
    (hdoc : node.Kind = YamlKind.DocumentNode) (hroot : node.Content = root :: others) :
    documentRoot node = some root := by
  simp [documentRoot, hdoc, hroot]

/-- The extraction step on a document whose `sources` node has a first pair with a
mapping value that holds a `url`. -/
theorem extractInfo_of_shape (info : pkgInfo) (node root sources versionKey versionMap urlNode : Node)
    (others rest : List Node)
    (hdoc : node.Kind = YamlKind.DocumentNode) (hroot : node.Content = root :: others)
    (hsources : MappingHas root "sources" sources)
    (hfirst : sources.Content = versionKey :: versionMap :: rest)
    (hurl : MappingHas versionMap "url" urlNode) :
    extractInfo info node =
      collectUrls { info with firstVersion := versionKey.Value } urlNode := by
  have hmap : versionMap.Kind = YamlKind.MappingNode := hurl.1
  simp [extractInfo, documentRoot_of_document node root others hdoc hroot,
    getValueByKey_of_mappingHas root "sources" sources hsources,
    getValueByKey_of_mappingHas versionMap "url" urlNode hurl,
    Outcome.mapError, Outcome.andThen, index, hfirst, hmap]

/-! ## Lemmas on version selection -/

theorem firstVersionDir_eq_some (versions : List DirEntry) (v : DirEntry) :
    firstVersionDir versions = some v ↔
      ∃ skipped after, versions = skipped ++ v :: after ∧ v.IsDir = true ∧
        ∀ e ∈ skipped, e.IsDir = false := by
  induction versions with
  | nil => simp [firstVersionDir]
  | cons e rest ih =>
    by_cases he : e.IsDir = true
    · simp only [firstVersionDir, he, if_true, Option.some.injEq]
      constructor
      · intro h
        exact ⟨[], rest, by simp [h], h ▸ he, by simp⟩
      · rintro ⟨skipped, after, hcat, _, hskip⟩
        cases skipped with
        | nil =>
          simp at hcat
          exact hcat.1
        | cons s ss =>
          simp at hcat
          have hs : s.IsDir = false := hskip s (List.mem_cons_self _ _)
          rw [← hcat.1, he] at hs
          exact absurd hs (by simp)
    · have he' : e.IsDir = false := by simpa using he
      simp only [firstVersionDir, he', Bool.false_eq_true, if_false, ih]
      constructor
      · rintro ⟨skipped, after, hcat, hv, hskip⟩
        refine ⟨e :: skipped, after, by simp [hcat], hv, ?_⟩
        intro x hx
        rcases List.mem_cons.mp hx with hx | hx
        · exact hx ▸ he'
        · exact hskip x hx
      · rintro ⟨skipped, after, hcat, hv, hskip⟩
        cases skipped with
        | nil =>
          simp at hcat
          rw [hcat.1, hv] at he'
          exact absurd he' (by simp)
        | cons s ss =>
          simp at hcat
          exact ⟨ss, after, hcat.2, hv, fun x hx => hskip x (List.mem_cons_of_mem _ hx)⟩

theorem firstVersionDir_eq_none (versions : List DirEntry) :
    firstVersionDir versions = none ↔ ∀ e ∈ versions, e.IsDir = false := by
  induction versions with
  | nil => simp [firstVersionDir]
  | cons e rest ih =>
    by_cases he : e.IsDir = true
    · simp [firstVersionDir, he]
    · have he' : e.IsDir = false := by simpa using he
      simp [firstVersionDir, he', ih]

/-! ## The extraction step -/

/-- C1: when the parsed document has a mapping root with a `sources` key whose value has
the first pair `(versionKey, versionMap)`, `versionMap` is a mapping and the value of its
`url` key is a scalar with text `s`, `readPackageInfoWithReturn` returns the record with
the requested package name, `firstVersion` the text of `versionKey` and
`firstUrls = [s]`.  (That `sources` is itself a mapping is not needed.) -/
theorem readPackageInfoWithReturn_scalar_url (w : World) (packageName directory : String)
    (node root sources versionKey versionMap urlNode : Node) (others rest : List Node)
    (s : String)
    (hload : loadDocument w packageName directory = Outcome.ok node)
    (hdoc : node.Kind = YamlKind.DocumentNode) (hroot : node.Content = root :: others)
    (hsources : MappingHas root "sources" sources)
    (hfirst : sources.Content = versionKey :: versionMap :: rest)
    (hurl : MappingHas versionMap "url" urlNode)
    (hscalar : urlNode.Kind = YamlKind.ScalarNode) (hs : urlNode.Value = s) :
    readPackageInfoWithReturn w packageName directory =
      Outcome.ok
        { pkgName := packageName, firstVersion := versionKey.Value, firstUrls := [s] } := by
  simp [readPackageInfoWithReturn, hload, Outcome.andThen,
    extractInfo_of_shape _ node root sources versionKey versionMap urlNode others rest
      hdoc hroot hsources hfirst hurl,
    collectUrls, hscalar, hs]

/-- The example of the specification: `sources` with the single version `1.2.0` and a
scalar `url` gives `firstVersion = "1.2.0"` and one URL. -/
theorem readPackageInfoWithReturn_scalar_url_witness :
    readPackageInfoWithReturn zlibWorld "zlib" "temp-ver" =
      Outcome.ok
        { pkgName := "zlib", firstVersion := "1.2.0",
          firstUrls := ["https://example.com/a.tar.gz"] } :=
  readPackageInfoWithReturn_scalar_url zlibWorld "zlib" "temp-ver"
    (sourcesDoc "1.2.0" (Node.scalar "https://example.com/a.tar.gz"))
    (Node.mapping [Node.scalar "sources",
      Node.mapping [Node.scalar "1.2.0",
        Node.mapping [Node.scalar "url", Node.scalar "https://example.com/a.tar.gz"]]])
    (Node.mapping [Node.scalar "1.2.0",
      Node.mapping [Node.scalar "url", Node.scalar "https://example.com/a.tar.gz"]])
    (Node.scalar "1.2.0")
    (Node.mapping [Node.scalar "url", Node.scalar "https://example.com/a.tar.gz"])
    (Node.scalar "https://example.com/a.tar.gz") [] []
    "https://example.com/a.tar.gz"
    rfl rfl rfl
    ⟨rfl, [], Node.scalar "sources", [], rfl, rfl, by simp⟩
    rfl
    ⟨rfl, [], Node.scalar "url", [], rfl, rfl, by simp⟩
    rfl rfl

/-- C2: when the `url` value of the first `sources` entry is a sequence node with
elements `elements`, `readPackageInfoWithReturn` succeeds and `firstUrls` is the list of
the elements' texts, in document order: same length, same position for each text. -/
theorem readPackageInfoWithReturn_sequence_url (w : World) (packageName directory : String)
    (node root sources versionKey versionMap urlNode : Node) (others rest : List Node)
    (elements : List Node)
    (hload : loadDocument w packageName directory = Outcome.ok node)
    (hdoc : node.Kind = YamlKind.DocumentNode) (hroot : node.Content = root :: others)
    (hsources : MappingHas root "sources" sources)
    (hfirst : sources.Content = versionKey :: versionMap :: rest)
    (hurl : MappingHas versionMap "url" urlNode)
    (hsequence : urlNode.Kind = YamlKind.SequenceNode)
    (helements : urlNode.Content = elements) :
    ∃ info : pkgInfo,
      readPackageInfoWithReturn w packageName directory = Outcome.ok info ∧
      info.pkgName = packageName ∧ info.firstVersion = versionKey.Value ∧
      info.firstUrls = elements.map Node.Value ∧
      info.firstUrls.length = elements.length ∧
      ∀ i : Nat, info.firstUrls.get? i = (elements.get? i).map Node.Value := by
  refine ⟨{ pkgName := packageName, firstVersion := versionKey.Value,
            firstUrls := elements.map Node.Value }, ?_, rfl, rfl, rfl, ?_, ?_⟩
  · simp [readPackageInfoWithReturn, hload, Outcome.andThen,
      extractInfo_of_shape _ node root sources versionKey versionMap urlNode others rest
        hdoc hroot hsources hfirst hurl,
      collectUrls, hsequence, helements]
  · simp
  · intro i
    simp [List.get?_eq_getElem?]

/-- The example of the specification: a `url` sequence of two mirrors is returned in
order. -/
theorem readPackageInfoWithReturn_sequence_url_witness :
    ∃ info : pkgInfo,
      readPackageInfoWithReturn mirrorsWorld "fmt" "temp-ver" = Outcome.ok info ∧
      info.pkgName = "fmt" ∧ info.firstVersion = "2.0" ∧
      info.firstUrls = ["https://a/x", "https://b/y"] ∧
      info.firstUrls.length = 2 ∧
      ∀ i : Nat, info.firstUrls.get? i =
        ([Node.scalar "https://a/x", Node.scalar "https://b/y"].get? i).map Node.Value :=
  readPackageInfoWithReturn_sequence_url mirrorsWorld "fmt" "temp-ver"
    (sourcesDoc "2.0" (Node.sequence [Node.scalar "https://a/x", Node.scalar "https://b/y"]))
    (Node.mapping [Node.scalar "sources",
      Node.mapping [Node.scalar "2.0", Node.mapping [Node.scalar "url",
        Node.sequence [Node.scalar "https://a/x", Node.scalar "https://b/y"]]]])
    (Node.mapping [Node.scalar "2.0", Node.mapping [Node.scalar "url",
      Node.sequence [Node.scalar "https://a/x", Node.scalar "https://b/y"]]])
    (Node.scalar "2.0")
    (Node.mapping [Node.scalar "url",
      Node.sequence [Node.scalar "https://a/x", Node.scalar "https://b/y"]])
    (Node.sequence [Node.scalar "https://a/x", Node.scalar "https://b/y"]) [] []
    [Node.scalar "https://a/x", Node.scalar "https://b/y"]
    rfl rfl rfl
    ⟨rfl, [], Node.scalar "sources", [], rfl, rfl, by simp⟩
    rfl
    ⟨rfl, [], Node.scalar "url", [], rfl, rfl, by simp⟩
    rfl rfl

/-- C3: the extraction step on documents that parse without error.  A root that is not a
mapping and a root without `sources` give an error value, but an empty document makes
`getValueByKey` dereference the nil `root`, a `sources` that is an empty mapping, a
scalar or a one-element sequence makes `sources.Content[0]` or `sources.Content[1]`
panic, and a `sources` that is a sequence of two nodes is accepted without an error.
The last two lines are the whole pipeline on a tree whose `conandata.yml` is
`sources: {}` and on one whose `conandata.yml` is empty. -/
theorem extractInfo_aborts_on_degenerate_sources :
    extractInfo freshInfo (Node.document (Node.scalar "text")) =
        Outcome.error (PkgError.getSourcesFailed (KeyError.notMapping (Node.scalar "text"))) ∧
    extractInfo freshInfo (Node.document (Node.mapping [Node.scalar "name", Node.scalar "zlib"])) =
        Outcome.error (PkgError.getSourcesFailed (KeyError.keyNotFound "sources")) ∧
    extractInfo freshInfo Node.zeroValue = Outcome.abort Panic.nilDereference ∧
    extractInfo freshInfo (Node.document (Node.mapping [Node.scalar "sources", Node.mapping []])) =
        Outcome.abort Panic.indexOutOfRange ∧
    extractInfo freshInfo (Node.document (Node.mapping [Node.scalar "sources", Node.scalar "none"])) =
        Outcome.abort Panic.indexOutOfRange ∧
    extractInfo freshInfo (Node.document (Node.mapping [Node.scalar "sources",
        Node.sequence [Node.scalar "1.2.0"]])) = Outcome.abort Panic.indexOutOfRange ∧
    extractInfo freshInfo (Node.document (Node.mapping [Node.scalar "sources",
        Node.sequence [Node.scalar "1.2.0",
          Node.mapping [Node.scalar "url", Node.scalar "https://example.com/a.tar.gz"]]])) =
      Outcome.ok { pkgName := "zlib", firstVersion := "1.2.0",
                   firstUrls := ["https://example.com/a.tar.gz"] } ∧
    readPackageInfoWithReturn emptySourcesWorld "a" "temp-ver" =
      Outcome.abort Panic.indexOutOfRange ∧
    readPackageInfoWithReturn emptyFileWorld "a" "temp-ver" =
      Outcome.abort Panic.nilDereference :=
  ⟨rfl, rfl, rfl, rfl, rfl, rfl, rfl, rfl, rfl⟩

/-! ## Version selection -/

/-- C4: version selection returns the first entry of the listing that is a directory,
every entry before it being a non-directory; it fails with `no versions found` exactly
on the empty listing, with `no version directories found` exactly on a non-empty listing
without a directory, and it never panics. -/
theorem selectVersion_first_directory (packageName : String) (versions : List DirEntry) :
    (∀ v, selectVersion packageName versions = Outcome.ok v ↔
      ∃ skipped after, versions = skipped ++ v :: after ∧ v.IsDir = true ∧
        ∀ e ∈ skipped, e.IsDir = false) ∧
    (selectVersion packageName versions =
        Outcome.error (PkgError.noVersionsFound packageName) ↔ versions = []) ∧
    (selectVersion packageName versions =
        Outcome.error (PkgError.noVersionDirectories packageName) ↔
      versions ≠ [] ∧ ∀ e ∈ versions, e.IsDir = false) ∧
    (∀ p, selectVersion packageName versions ≠ Outcome.abort p) := by
  cases versions with
  | nil => simp [selectVersion]
  | cons e rest =>
    cases hsel : firstVersionDir (e :: rest) with
    | none =>
      have hall := (firstVersionDir_eq_none (e :: rest)).mp hsel
      refine ⟨?_, ?_, ?_, ?_⟩
      · intro v
        simp only [selectVersion, List.length_cons, Nat.succ_ne_zero, if_false, hsel]
        constructor
        · intro h
          cases h
        · rintro ⟨skipped, after, hcat, hv, _⟩
          have hmem : v ∈ e :: rest := by rw [hcat]; simp
          rw [hall v hmem] at hv
          exact absurd hv (by simp)
      · simp [selectVersion, hsel]
      · simp only [selectVersion, List.length_cons, Nat.succ_ne_zero, if_false, hsel]
        simpa using hall
      · simp [selectVersion, hsel]
    | some v₀ =>
      have hsome := (firstVersionDir_eq_some (e :: rest) v₀).mp hsel
      refine ⟨?_, ?_, ?_, ?_⟩
      · intro v
        simp only [selectVersion, List.length_cons, Nat.succ_ne_zero, if_false, hsel,
          Outcome.ok.injEq]
        constructor
        · intro h
          exact h ▸ hsome
        · intro h
          have h' := (firstVersionDir_eq_some (e :: rest) v).mpr h
          rw [hsel] at h'
          exact Option.some.inj h'
      · simp [selectVersion, hsel]
      · simp only [selectVersion, List.length_cons, Nat.succ_ne_zero, if_false, hsel]
        constructor
        · intro h
          cases h
        · rintro ⟨_, hall⟩
          obtain ⟨skipped, after, hcat, hv, _⟩ := hsome
          have hmem : v₀ ∈ e :: rest := by rw [hcat]; simp
          rw [hall v₀ hmem] at hv
          exact absurd hv (by simp)
      · simp [selectVersion, hsel]

/-! ## The loop of `listPackageInfo` as a traversal of the entries in range -/

theorem entriesInRange_of_ge (packages : List DirEntry) (i end_ : Int) (h : end_ ≤ i) :
    entriesInRange packages i end_ = [] := by
  have hzero : (end_ - i).toNat = 0 := by omega
  simp [entriesInRange, hzero]

theorem entriesInRange_cons (packages : List DirEntry) (i end_ : Int) (h0 : 0 ≤ i)
    (hlt : i < end_) (hlen : end_ ≤ packages.length) :
    ∃ pkg, packages.get? i.toNat = some pkg ∧
      entriesInRange packages i end_ = pkg :: entriesInRange packages (i + 1) end_ := by
  have hi : i.toNat < packages.length := by omega
  refine ⟨packages[i.toNat], ?_, ?_⟩
  · simp [List.get?_eq_getElem?, List.getElem?_eq_getElem hi]
  · have h1 : (end_ - i).toNat = (end_ - (i + 1)).toNat + 1 := by omega
    have h2 : (i + 1).toNat = i.toNat + 1 := by omega
    simp only [entriesInRange, h1, h2]
    rw [List.drop_eq_getElem_cons hi, List.take_succ_cons]

theorem listLoop_eq_processEntries (w : World) (packages : List DirEntry) (directory : String)
    (end_ : Int) (hlen : end_ ≤ packages.length) :
    ∀ (n : Nat) (i : Int) (st : ListState), 0 ≤ i → (end_ - i).toNat = n →
      listLoop w packages directory end_ i st =
        processEntries w directory (entriesInRange packages i end_) i st := by
  intro n
  induction n with
  | zero =>
    intro i st _ hn
    have hge : ¬ i < end_ := by omega
    rw [listLoop, entriesInRange_of_ge packages i end_ (by omega)]
    simp [hge, processEntries]
  | succ n ih =>
    intro i st h0 hn
    have hlt : i < end_ := by omega
    obtain ⟨pkg, hget, hcons⟩ := entriesInRange_cons packages i end_ h0 hlt hlen
    have hidx : (index packages i : Outcome Unit DirEntry) = Outcome.ok pkg := by
      simp only [index, not_lt.mpr h0, if_false, hget]
    rw [listLoop, hcons]
    simp only [hlt, if_true, hidx, processEntries]
    cases hbody : loopBody w directory i pkg st with
    | mk st' o =>
      cases o with
      | none => exact ih (i + 1) st' (by omega) (by omega)
      | some p => rfl

theorem endIndex_le (start count total : Int) : endIndex start count total ≤ total := by
  unfold endIndex
  split
  · rename_i h
    exact le_of_lt h.2
  · exact le_refl _

/-- On a non-empty listing and a valid `start`, `listPackageInfo` is the traversal of the
entries in `[start, end)` followed by the statistics block. -/
theorem listPackageInfo_eq (w : World) (start count : Int) (countGithub : Bool)
    (directory : String) (packages : List DirEntry)
    (hdir : w.ReadDir directory = Except.ok packages)
    (h0 : 0 ≤ start) (hlt : start < packages.length) :
    listPackageInfo w start count countGithub directory =
      finish countGithub start (endIndex start count packages.length)
        (processEntries w directory
          (entriesInRange packages start (endIndex start count packages.length)) start
          (initialState start (endIndex start count packages.length) packages.length
            directory)) := by
  have hne : packages.length ≠ 0 := by
    intro h
    rw [h] at hlt
    simp at hlt
    omega
  have hvalid : ¬ (start < 0 ∨ start ≥ packages.length) := by omega
  simp only [listPackageInfo, hdir, hne, if_false, hvalid]
  rw [listLoop_eq_processEntries w packages directory _ (endIndex_le _ _ _) _ start _ h0 rfl]
  rfl

/-! ## One iteration -/

/-- The four ways one iteration can go. -/
theorem loopBody_cases (w : World) (directory : String) (i : Int) (pkg : DirEntry)
    (st : ListState) :
    (pkg.IsDir = false ∧ loopBody w directory i pkg st = (st, none)) ∨
    (pkg.IsDir = true ∧ ∃ err,
      readPackageInfoWithReturn w pkg.Name directory = Outcome.error err ∧
      loopBody w directory i pkg st =
        ({ out := st.out ++ [Event.packageHeader (i + 1) pkg.Name,
              Event.call pkg.Name directory, Event.printError err, Event.blankLine],
           githubCount := st.githubCount, errorCount := st.errorCount + 1 }, none)) ∨
    (pkg.IsDir = true ∧ ∃ info,
      readPackageInfoWithReturn w pkg.Name directory = Outcome.ok info ∧
      loopBody w directory i pkg st =
        ({ out := st.out ++ [Event.packageHeader (i + 1) pkg.Name,
              Event.call pkg.Name directory, Event.printInfo info],
           githubCount := if isGithubFirst info then st.githubCount + 1 else st.githubCount,
           errorCount := st.errorCount }, none)) ∨
    (pkg.IsDir = true ∧ ∃ p,
      readPackageInfoWithReturn w pkg.Name directory = Outcome.abort p ∧
      loopBody w directory i pkg st =
        ({ out := st.out ++ [Event.packageHeader (i + 1) pkg.Name,
              Event.call pkg.Name directory],
           githubCount := st.githubCount, errorCount := st.errorCount }, some p)) := by
  cases hd : pkg.IsDir with
  | false => simp [loopBody, hd]
  | true =>
    cases hr : readPackageInfoWithReturn w pkg.Name directory with
    | ok info => simp [loopBody, hd, hr]
    | error err => simp [loopBody, hd, hr]
    | abort p => simp [loopBody, hd, hr]

/-! ## The traversal -/

/-- A traversal that is not aborted: the counters, the headers and the calls. -/
theorem processEntries_completed (w : World) (directory : String) :
    ∀ (entries : List DirEntry) (i : Int) (st st' : ListState),
      processEntries w directory entries i st = (st', none) →
      st'.githubCount = st.githubCount + (entries.countP (countsAsGithub w directory) : Nat) ∧
      st'.errorCount = st.errorCount + (entries.countP (countsAsError w directory) : Nat) ∧
      packageHeaders st'.out = packageHeaders st.out ++ numberedDirs entries i ∧
      pipelineCalls st'.out = pipelineCalls st.out ++ (numberedDirs entries i).map Prod.snd := by
  intro entries
  induction entries with
  | nil =>
    intro i st st' h
    simp only [processEntries, Prod.mk.injEq, and_true] at h
    subst h
    simp [numberedDirs]
  | cons pkg rest ih =>
    intro i st st' h
    simp only [processEntries] at h
    rcases loopBody_cases w directory i pkg st with
      ⟨hd, hb⟩ | ⟨hd, err, hr, hb⟩ | ⟨hd, info, hr, hb⟩ | ⟨hd, p, hr, hb⟩
    · rw [hb] at h
      obtain ⟨h1, h2, h3, h4⟩ := ih (i + 1) st st' h
      simp [List.countP_cons, countsAsGithub, countsAsError, numberedDirs, hd, h1, h2, h3, h4]
    · rw [hb] at h
      obtain ⟨h1, h2, h3, h4⟩ := ih (i + 1) _ st' h
      simp only [h1, h2, h3, h4]
      simp [List.countP_cons, countsAsGithub, countsAsError, numberedDirs, hd, hr,
        succeededWithGithubFirst, Outcome.isError, packageHeaders, pipelineCalls,
        List.filterMap_append, List.filterMap_cons]
      omega
    · rw [hb] at h
      obtain ⟨h1, h2, h3, h4⟩ := ih (i + 1) _ st' h
      simp only [h1, h2, h3, h4]
      by_cases hg : isGithubFirst info = true
      · simp [List.countP_cons, countsAsGithub, countsAsError, numberedDirs, hd, hr,
          succeededWithGithubFirst, Outcome.isError, packageHeaders, pipelineCalls,
          List.filterMap_append, List.filterMap_cons, hg]
        omega
      · simp [List.countP_cons, countsAsGithub, countsAsError, numberedDirs, hd, hr,
          succeededWithGithubFirst, Outcome.isError, packageHeaders, pipelineCalls,
          List.filterMap_append, List.filterMap_cons, hg]
    · rw [hb] at h
      simp at h

/-- The traversal prints no line of the statistics block. -/
theorem processEntries_statistics (w : World) (directory : String) :
    ∀ (entries : List DirEntry) (i : Int) (st : ListState) (e : Event),
      e ∈ (processEntries w directory entries i st).1.out → e.isStatistics = true →
      e ∈ st.out := by
  intro entries
  induction entries with
  | nil =>
    intro i st e h _
    simpa [processEntries] using h
  | cons pkg rest ih =>
    intro i st e h hs
    simp only [processEntries] at h
    rcases loopBody_cases w directory i pkg st with
      ⟨_, hb⟩ | ⟨_, err, _, hb⟩ | ⟨_, info, _, hb⟩ | ⟨_, p, _, hb⟩
    · rw [hb] at h
      exact ih (i + 1) st e h hs
    · rw [hb] at h
      have h' := ih (i + 1) _ e h hs
      simp only [List.mem_append, List.mem_cons, List.mem_singleton, List.not_mem_nil,
        or_false] at h'
      rcases h' with h' | h' | h' | h' | h'
      · exact h'
      all_goals (subst h'; simp [Event.isStatistics] at hs)
    · rw [hb] at h
      have h' := ih (i + 1) _ e h hs
      simp only [List.mem_append, List.mem_cons, List.mem_singleton, List.not_mem_nil,
        or_false] at h'
      rcases h' with h' | h' | h' | h'
      · exact h'
      all_goals (subst h'; simp [Event.isStatistics] at hs)
    · rw [hb] at h
      simp only [List.mem_append, List.mem_cons, List.mem_singleton, List.not_mem_nil,
        or_false] at h
      rcases h with h | h | h
      · exact h
      all_goals (subst h; simp [Event.isStatistics] at hs)

/-- The traversal is aborted exactly when the pipeline of some directory in range panics. -/
theorem processEntries_aborted_iff (w : World) (directory : String) :
    ∀ (entries : List DirEntry) (i : Int) (st : ListState),
      (processEntries w directory entries i st).2 = none ↔
        ∀ e ∈ entries, abortsOn w directory e = false := by
  intro entries
  induction entries with
  | nil =>
    intro i st
    simp [processEntries]
  | cons pkg rest ih =>
    intro i st
    simp only [processEntries]
    rcases loopBody_cases w directory i pkg st with
      ⟨hd, hb⟩ | ⟨hd, err, hr, hb⟩ | ⟨hd, info, hr, hb⟩ | ⟨hd, p, hr, hb⟩
    · rw [hb]
      simp [ih, abortsOn, hd]
    · rw [hb]
      simp [ih, abortsOn, hd, hr, Outcome.isAbort]
    · rw [hb]
      simp [ih, abortsOn, hd, hr, Outcome.isAbort]
    · rw [hb]
      simp [abortsOn, hd, hr, Outcome.isAbort]

/-! ## Runs that print the statistics block -/

theorem listPackageInfo_of_empty (w : World) (start count : Int) (countGithub : Bool)
    (directory : String) (packages : List DirEntry)
    (hdir : w.ReadDir directory = Except.ok packages) (hempty : packages = []) :
    listPackageInfo w start count countGithub directory =
      { out := [Event.noPackagesFound], aborted := none } := by
  simp [listPackageInfo, hdir, hempty]

theorem listPackageInfo_of_invalid (w : World) (start count : Int) (countGithub : Bool)
    (directory : String) (packages : List DirEntry)
    (hdir : w.ReadDir directory = Except.ok packages) (hne : packages ≠ [])
    (hstart : start < 0 ∨ start ≥ packages.length) :
    listPackageInfo w start count countGithub directory =
      { out := [Event.invalidStart start packages.length], aborted := none } := by
  have hlen : packages.length ≠ 0 := by
    intro h
    exact hne (List.length_eq_zero.mp h)
  simp only [listPackageInfo, hdir, hlen, if_false, hstart, if_true]

/-- A run whose output holds a line of the statistics block had a valid `start`, finished
its traversal without a panic, and printed the block from the final counters. -/
theorem listPackageInfo_statistics (w : World) (start count : Int) (countGithub : Bool)
    (directory : String) (packages : List DirEntry)
    (hdir : w.ReadDir directory = Except.ok packages) (e : Event)
    (he : e ∈ (listPackageInfo w start count countGithub directory).out)
    (hs : e.isStatistics = true) :
    0 ≤ start ∧ start < packages.length ∧
    ∃ st : ListState,
      processEntries w directory
        (entriesInRange packages start (endIndex start count packages.length)) start
        (initialState start (endIndex start count packages.length) packages.length
          directory) = (st, none) ∧
      (listPackageInfo w start count countGithub directory).out =
        st.out ++
          [Event.statsHeader,
           Event.statsGithub st.githubCount
             (wrapInt64 (endIndex start count packages.length - start)),
           Event.statsErrors st.errorCount
             (wrapInt64 (endIndex start count packages.length - start))] ∧
      (e = Event.statsHeader ∨
       e = Event.statsGithub st.githubCount
             (wrapInt64 (endIndex start count packages.length - start)) ∨
       e = Event.statsErrors st.errorCount
             (wrapInt64 (endIndex start count packages.length - start))) := by
  by_cases hempty : packages = []
  · rw [listPackageInfo_of_empty w start count countGithub directory packages hdir hempty] at he
    simp only [List.mem_singleton] at he
    subst he
    simp [Event.isStatistics] at hs
  by_cases hstart : start < 0 ∨ start ≥ packages.length
  · rw [listPackageInfo_of_invalid w start count countGithub directory packages hdir hempty
      hstart] at he
    simp only [List.mem_singleton] at he
    subst he
    simp [Event.isStatistics] at hs
  have h0 : 0 ≤ start := by omega
  have hlt : start < packages.length := by omega
  refine ⟨h0, hlt, ?_⟩
  rw [listPackageInfo_eq w start count countGithub directory packages hdir h0 hlt] at he ⊢
  have hstat := processEntries_statistics w directory
    (entriesInRange packages start (endIndex start count packages.length)) start
    (initialState start (endIndex start count packages.length) packages.length directory) e
  have hinit : e ∉ (initialState start (endIndex start count packages.length)
      packages.length directory).out := by
    intro hmem
    simp only [initialState, List.mem_singleton] at hmem
    subst hmem
    simp [Event.isStatistics] at hs
  cases hrun : processEntries w directory
    (entriesInRange packages start (endIndex start count packages.length)) start
    (initialState start (endIndex start count packages.length) packages.length directory) with
  | mk st o =>
    rw [hrun] at he hstat
    cases o with
    | some p =>
      simp only [finish] at he
      exact absurd (hstat he hs) hinit
    | none =>
      cases countGithub with
      | false =>
        simp only [finish, printStatistics] at he
        exact absurd (hstat he hs) hinit
      | true =>
        refine ⟨st, rfl, ?_, ?_⟩
        · simp [finish, printStatistics]
        · simp only [finish, printStatistics, if_true, List.mem_append, List.mem_cons,
            List.mem_singleton, List.not_mem_nil, or_false] at he
          rcases he with he | he
          · exact absurd (hstat he hs) hinit
          · exact he

/-! ## 64-bit arithmetic of the end index -/

theorem wrapInt64_of_inRange (x : Int) (hlo : minInt64 ≤ x) (hhi : x ≤ maxInt64) :
    wrapInt64 x = x := by
  unfold wrapInt64
  unfold minInt64 at hlo
  unfold maxInt64 at hhi
  have h : (x + 2 ^ 63) % 2 ^ 64 = x + 2 ^ 63 :=
    Int.emod_eq_of_lt (by omega) (by omega)
  omega

/-- Where `start + count` fits in a Go `int`, the end index is the minimum of the
specification. -/
theorem endIndex_eq_min (start count total : Int) (h0 : 0 ≤ start) (hc : 0 ≤ count)
    (hsum : start + count ≤ maxInt64) :
    endIndex start count total = min (start + count) total := by
  have hw : wrapInt64 (start + count) = start + count :=
    wrapInt64_of_inRange _ (by unfold minInt64; omega) hsum
  unfold endIndex
  rw [hw]
  by_cases h : start + count < total
  · simp [hc, h, min_eq_left (le_of_lt h)]
  · simp [h, min_eq_right (not_lt.mp h)]

theorem endIndex_of_negative (start count total : Int) (hc : count < 0) :
    endIndex start count total = total := by
  unfold endIndex
  simp [not_le.mpr hc]

/-! ## Runs on the example trees -/

theorem emptySourcesWorld_run :
    listPackageInfo emptySourcesWorld 0 2 true "temp-ver" =
      { out := [Event.listing 1 2 2 "temp-ver", Event.packageHeader 1 "a",
                Event.call "a" "temp-ver"],
        aborted := some Panic.indexOutOfRange } := by
  rw [listPackageInfo_eq emptySourcesWorld 0 2 true "temp-ver" [dir "a", dir "b"] rfl
    (by decide) (by decide)]
  rfl

theorem emptyFileWorld_run :
    listPackageInfo emptyFileWorld 0 (-1) true "temp-ver" =
      { out := [Event.listing 1 2 2 "temp-ver", Event.packageHeader 1 "a",
                Event.call "a" "temp-ver"],
        aborted := some Panic.nilDereference } := by
  rw [listPackageInfo_eq emptyFileWorld 0 (-1) true "temp-ver" [dir "a", dir "b"] rfl
    (by decide) (by decide)]
  rfl

theorem malformedWorld_run :
    listPackageInfo malformedWorld 0 (-1) true "temp-ver" =
      { out := [Event.listing 1 2 2 "temp-ver",
                Event.packageHeader 1 "a", Event.call "a" "temp-ver",
                Event.printError (PkgError.parseFailed
                  "yaml: did not find expected node content" "recipes/a/conandata.yml"),
                Event.blankLine,
                Event.packageHeader 2 "b", Event.call "b" "temp-ver",
                Event.printInfo { pkgName := "b", firstVersion := "1.0",
                                  firstUrls := ["https://example.com/b.tgz"] },
                Event.statsHeader, Event.statsGithub 0 2, Event.statsErrors 1 2],
        aborted := none } := by
  rw [listPackageInfo_eq malformedWorld 0 (-1) true "temp-ver" [dir "a", dir "b"] rfl
    (by decide) (by decide)]
  rfl

theorem readmeWorld_run :
    listPackageInfo readmeWorld 0 2 true "temp-ver" =
      { out := [Event.listing 1 2 2 "temp-ver",
                Event.packageHeader 2 "zlib", Event.call "zlib" "temp-ver",
                Event.printInfo { pkgName := "zlib", firstVersion := "1.0",
                                  firstUrls := ["https://example.com/zlib.tgz"] },
                Event.statsHeader, Event.statsGithub 0 2, Event.statsErrors 0 2],
        aborted := none } := by
  rw [listPackageInfo_eq readmeWorld 0 2 true "temp-ver" [file "README.md", dir "zlib"] rfl
    (by decide) (by decide)]
  rfl

theorem fiveWorld_run :
    listPackageInfo fiveWorld 0 2 false "temp-ver" =
      { out := [Event.listing 1 2 5 "temp-ver",
                Event.packageHeader 1 "p1", Event.call "p1" "temp-ver",
                Event.printInfo { pkgName := "p1", firstVersion := "1.0", firstUrls := ["u1"] },
                Event.packageHeader 2 "p2", Event.call "p2" "temp-ver",
                Event.printInfo { pkgName := "p2", firstVersion := "1.0", firstUrls := ["u2"] }],
        aborted := none } := by
  rw [listPackageInfo_eq fiveWorld 0 2 false "temp-ver"
    [dir "p1", dir "p2", dir "p3", dir "p4", dir "p5"] rfl (by decide) (by decide)]
  rfl

theorem githubWorld_run :
    (listPackageInfo githubWorld 0 (-1) true "temp-ver").out =
      [Event.listing 1 7 7 "temp-ver",
       Event.packageHeader 1 "gh", Event.call "gh" "temp-ver",
       Event.printInfo { pkgName := "gh", firstVersion := "1.0",
                         firstUrls := ["https://github.com/madler/zlib/v1.tgz"] },
       Event.packageHeader 3 "nourl", Event.call "nourl" "temp-ver",
       Event.printInfo { pkgName := "nourl", firstVersion := "1.0", firstUrls := [] },
       Event.packageHeader 4 "broken", Event.call "broken" "temp-ver",
       Event.printError (PkgError.parseFailed
         "yaml: did not find expected node content" "recipes/broken/conandata.yml"),
       Event.blankLine,
       Event.packageHeader 5 "mirror", Event.call "mirror" "temp-ver",
       Event.printInfo { pkgName := "mirror", firstVersion := "1.0",
                         firstUrls := ["https://example.com/m.tgz",
                                       "https://github.com/m/m.tgz"] },
       Event.packageHeader 6 "plain", Event.call "plain" "temp-ver",
       Event.printInfo { pkgName := "plain", firstVersion := "1.0",
                         firstUrls := ["http://github.com/p/p.tgz"] },
       Event.packageHeader 7 "upper", Event.call "upper" "temp-ver",
       Event.printInfo { pkgName := "upper", firstVersion := "1.0",
                         firstUrls := ["https://GitHub.com/u/u.tgz"] },
       Event.statsHeader, Event.statsGithub 1 7, Event.statsErrors 1 7] := by
  rw [listPackageInfo_eq githubWorld 0 (-1) true "temp-ver" githubEntries rfl
    (by decide) (by decide)]
  rfl

/-! ## Which packages are processed -/

theorem numberedDirs_length :
    ∀ (entries : List DirEntry) (i : Int),
      (numberedDirs entries i).length = entries.countP (fun e => e.IsDir) := by
  intro entries
  induction entries with
  | nil => intro i; simp [numberedDirs]
  | cons pkg rest ih =>
    intro i
    cases hd : pkg.IsDir with
    | false => simp [numberedDirs, hd, ih, List.countP_cons]
    | true => simp [numberedDirs, hd, ih, List.countP_cons]

/-- In a run that no panic ends, the pipeline is called for exactly the directory
entries in `[start, end)`, in increasing index order, each under the header with its
1-based number. -/
theorem listPackageInfo_calls_of_completed (w : World) (start count : Int)
    (countGithub : Bool) (directory : String) (packages : List DirEntry)
    (hdir : w.ReadDir directory = Except.ok packages)
    (h0 : 0 ≤ start) (hlt : start < packages.length)
    (hrun : (listPackageInfo w start count countGithub directory).aborted = none) :
    packageHeaders (listPackageInfo w start count countGithub directory).out =
      numberedDirs (entriesInRange packages start (endIndex start count packages.length))
        start ∧
    pipelineCalls (listPackageInfo w start count countGithub directory).out =
      (numberedDirs (entriesInRange packages start (endIndex start count packages.length))
        start).map Prod.snd := by
  rw [listPackageInfo_eq w start count countGithub directory packages hdir h0 hlt] at hrun ⊢
  cases hproc : processEntries w directory
    (entriesInRange packages start (endIndex start count packages.length)) start
    (initialState start (endIndex start count packages.length) packages.length directory) with
  | mk st o =>
    rw [hproc] at hrun
    cases o with
    | some p => simp [finish] at hrun
    | none =>
      obtain ⟨_, _, h3, h4⟩ := processEntries_completed w directory _ _ _ _ hproc
      have hi3 : packageHeaders (initialState start (endIndex start count packages.length)
          packages.length directory).out = [] := rfl
      have hi4 : pipelineCalls (initialState start (endIndex start count packages.length)
          packages.length directory).out = [] := rfl
      rw [hi3, List.nil_append] at h3
      rw [hi4, List.nil_append] at h4
      cases countGithub with
      | false => exact ⟨h3, h4⟩
      | true =>
        have hout : (finish true start (endIndex start count packages.length) (st, none)).out =
            st.out ++ [Event.statsHeader,
              Event.statsGithub st.githubCount
                (wrapInt64 (endIndex start count packages.length - start)),
              Event.statsErrors st.errorCount
                (wrapInt64 (endIndex start count packages.length - start))] := rfl
        rw [hout]
        constructor
        · rw [← h3]
          simp [packageHeaders, List.filterMap_append]
        · rw [← h4]
          simp [pipelineCalls, List.filterMap_append]

/-- C5: on a listing of two package directories of which the first has the
`conandata.yml` text `sources: {}`, `list 0 2` prints the header of package 1, calls its
pipeline and is ended by the panic on `sources.Content[0]`: the pipeline of the
directory at index 1, which lies in `[start, end) = [0, 2)`, is never run. -/
theorem listPackageInfo_stops_in_range :
    endIndex 0 2 2 = 2 ∧
    numberedDirs (entriesInRange [dir "a", dir "b"] 0 2) 0 = [(1, "a"), (2, "b")] ∧
    packageHeaders (listPackageInfo emptySourcesWorld 0 2 true "temp-ver").out = [(1, "a")] ∧
    pipelineCalls (listPackageInfo emptySourcesWorld 0 2 true "temp-ver").out = ["a"] ∧
    (listPackageInfo emptySourcesWorld 0 2 true "temp-ver").aborted =
      some Panic.indexOutOfRange := by
  rw [emptySourcesWorld_run]
  exact ⟨by decide, rfl, rfl, rfl, rfl⟩

/-! ## The end index -/

/-- C6: for `list 1 9223372036854775807` over a directory of five entries the sum
`start+count` wraps around to the smallest `int`, which is below `len(packages)`, so the
end index is negative instead of `min(start+count, total) = 5`, and `start <= end`
fails; the loop body is never entered and the denominators of the statistics wrap too. -/
theorem endIndex_wraps_around :
    endIndex 1 9223372036854775807 5 = -9223372036854775808 ∧
    min ((1 : Int) + 9223372036854775807) 5 = 5 ∧
    ¬ (1 ≤ endIndex 1 9223372036854775807 5) ∧
    listPackageInfo fiveWorld 1 9223372036854775807 true "temp-ver" =
      { out := [Event.listing 2 (-9223372036854775808) 5 "temp-ver",
                Event.statsHeader, Event.statsGithub 0 9223372036854775807,
                Event.statsErrors 0 9223372036854775807],
        aborted := none } := by
  refine ⟨by decide, by decide, by decide, ?_⟩
  rw [listPackageInfo_eq fiveWorld 1 9223372036854775807 true "temp-ver"
    [dir "p1", dir "p2", dir "p3", dir "p4", dir "p5"] rfl (by decide) (by decide)]
  rfl

/-! ## Partial failure -/

/-- C7: a malformed `conandata.yml` is counted and the listing goes on, but an empty
`conandata.yml` in the package at index 0 ends the whole run with a nil dereference:
the directory at index 1 is never processed, no error is counted and no statistics are
printed. -/
theorem listPackageInfo_stops_on_empty_yaml :
    readPackageInfoWithReturn emptyFileWorld "a" "temp-ver" =
      Outcome.abort Panic.nilDereference ∧
    listPackageInfo emptyFileWorld 0 (-1) true "temp-ver" =
      { out := [Event.listing 1 2 2 "temp-ver", Event.packageHeader 1 "a",
                Event.call "a" "temp-ver"],
        aborted := some Panic.nilDereference } ∧
    pipelineCalls (listPackageInfo emptyFileWorld 0 (-1) true "temp-ver").out = ["a"] ∧
    pipelineCalls (listPackageInfo malformedWorld 0 (-1) true "temp-ver").out = ["a", "b"] := by
  rw [emptyFileWorld_run, malformedWorld_run]
  exact ⟨rfl, rfl, rfl, rfl⟩

/-- In a run that prints the statistics, the error counter is the number of directory
entries in `[start, end)` whose pipeline returned an error value. -/
theorem listPackageInfo_errorCount (w : World) (start count : Int) (directory : String)
    (packages : List DirEntry) (n d : Int)
    (hdir : w.ReadDir directory = Except.ok packages)
    (hmem : Event.statsErrors n d ∈ (listPackageInfo w start count true directory).out) :
    n = ((entriesInRange packages start (endIndex start count packages.length)).countP
          (countsAsError w directory) : Nat) := by
  obtain ⟨_, _, st, hproc, _, he⟩ :=
    listPackageInfo_statistics w start count true directory packages hdir _ hmem rfl
  obtain ⟨_, h2, _, _⟩ := processEntries_completed w directory _ _ _ _ hproc
  rcases he with he | he | he
  · cases he
  · cases he
  · injection he with hn _
    rw [hn, h2]
    simp [initialState]

/-! ## The GitHub counter -/

theorem HasPrefix_iff (s pre : String) :
    HasPrefix s pre = true ↔ ∃ tail : List Char, s.data = pre.data ++ tail := by
  unfold HasPrefix
  rw [List.isPrefixOf_iff_prefix]
  constructor
  · rintro ⟨t, ht⟩
    exact ⟨t, ht.symm⟩
  · rintro ⟨t, ht⟩
    exact ⟨t, ht.symm⟩

theorem countsAsGithub_iff (w : World) (directory : String) (e : DirEntry) :
    countsAsGithub w directory e = true ↔
      e.IsDir = true ∧ ∃ (info : pkgInfo) (url : String) (rest : List String)
        (tail : List Char),
        readPackageInfoWithReturn w e.Name directory = Outcome.ok info ∧
        info.firstUrls = url :: rest ∧
        url.data = "https://github.com/".data ++ tail := by
  unfold countsAsGithub
  rw [Bool.and_eq_true]
  apply and_congr_right
  intro _
  cases hr : readPackageInfoWithReturn w e.Name directory with
  | error err => simp [succeededWithGithubFirst]
  | abort p => simp [succeededWithGithubFirst]
  | ok info =>
    cases hu : info.firstUrls with
    | nil => simp [succeededWithGithubFirst, isGithubFirst, hu]
    | cons url rest =>
      simp only [succeededWithGithubFirst, isGithubFirst, hu, HasPrefix_iff, githubPrefix,
        Outcome.ok.injEq]
      constructor
      · rintro ⟨tail, ht⟩
        exact ⟨info, url, rest, tail, rfl, hu, ht⟩
      · rintro ⟨info', url', rest', tail, hinfo, hu', ht⟩
        subst hinfo
        rw [hu] at hu'
        injection hu' with h1 _
        subst h1
        exact ⟨tail, ht⟩

/-- C8: with GitHub counting enabled, the count of every printed summary is the number of
entries in `[start, end)` that are directories whose pipeline returned a record whose
`firstUrls` is non-empty and whose element 0 starts, character for character, with
`https://github.com/`; the summary is printed whenever `start` is valid and no pipeline
in range panics. -/
theorem listPackageInfo_githubCount (w : World) (start count : Int) (directory : String)
    (packages : List DirEntry)
    (hdir : w.ReadDir directory = Except.ok packages) :
    (∀ g d : Int,
      Event.statsGithub g d ∈ (listPackageInfo w start count true directory).out →
      g = ((entriesInRange packages start (endIndex start count packages.length)).countP
            (countsAsGithub w directory) : Nat)) ∧
    (0 ≤ start → start < packages.length →
      (∀ e ∈ entriesInRange packages start (endIndex start count packages.length),
        abortsOn w directory e = false) →
      Event.statsGithub
          ((entriesInRange packages start (endIndex start count packages.length)).countP
            (countsAsGithub w directory) : Nat)
          (wrapInt64 (endIndex start count packages.length - start)) ∈
        (listPackageInfo w start count true directory).out) ∧
    (∀ e : DirEntry, countsAsGithub w directory e = true ↔
      e.IsDir = true ∧ ∃ (info : pkgInfo) (url : String) (rest : List String)
        (tail : List Char),
        readPackageInfoWithReturn w e.Name directory = Outcome.ok info ∧
        info.firstUrls = url :: rest ∧
        url.data = "https://github.com/".data ++ tail) := by
  refine ⟨?_, ?_, countsAsGithub_iff w directory⟩
  · intro g d hmem
    obtain ⟨_, _, st, hproc, _, he⟩ :=
      listPackageInfo_statistics w start count true directory packages hdir _ hmem rfl
    obtain ⟨h1, _, _, _⟩ := processEntries_completed w directory _ _ _ _ hproc
    rcases he with he | he | he
    · cases he
    · injection he with hg _
      rw [hg, h1]
      simp [initialState]
    · cases he
  · intro h0 hlt hsafe
    rw [listPackageInfo_eq w start count true directory packages hdir h0 hlt]
    have hnone := (processEntries_aborted_iff w directory
      (entriesInRange packages start (endIndex start count packages.length)) start
      (initialState start (endIndex start count packages.length) packages.length
        directory)).mpr hsafe
    cases hproc : processEntries w directory
      (entriesInRange packages start (endIndex start count packages.length)) start
      (initialState start (endIndex start count packages.length) packages.length
        directory) with
    | mk st o =>
      rw [hproc] at hnone
      simp only at hnone
      subst hnone
      obtain ⟨h1, _, _, _⟩ := processEntries_completed w directory _ _ _ _ hproc
      have hg : st.githubCount =
          ((entriesInRange packages start (endIndex start count packages.length)).countP
            (countsAsGithub w directory) : Nat) := by
        rw [h1]
        simp [initialState]
      simp [finish, printStatistics, hg]

/-- In `githubWorld` the summary reads 1: only `gh` is counted, not the package without
URL, the malformed one, the one with a GitHub mirror in second position, the `http` one
or the one spelled `GitHub.com`. -/
theorem listPackageInfo_githubCount_witness :
    (1 : Int) =
      ((entriesInRange githubEntries 0 (endIndex 0 (-1) githubEntries.length)).countP
        (countsAsGithub githubWorld "temp-ver") : Nat) :=
  (listPackageInfo_githubCount githubWorld 0 (-1) "temp-ver" githubEntries rfl).1 1 7
    (by rw [githubWorld_run]; simp)

/-! ## An invalid start position -/

/-- C9 as stated fails on the empty listing: with no entry at all, `start = 0` is outside
`[0, total)`, yet the run prints `No packages found` and no `Invalid start position`. -/
theorem listPackageInfo_empty_listing_not_invalid_start :
    emptyWorld.ReadDir "temp-ver" = Except.ok [] ∧
    listPackageInfo emptyWorld 0 (-1) true "temp-ver" =
      { out := [Event.noPackagesFound], aborted := none } ∧
    ∀ start total : Int,
      Event.invalidStart start total ∉
        (listPackageInfo emptyWorld 0 (-1) true "temp-ver").out := by
  refine ⟨rfl, rfl, ?_⟩
  intro start total h
  rw [listPackageInfo_of_empty emptyWorld 0 (-1) true "temp-ver" [] rfl rfl] at h
  simp at h

/-- C9, amended: for a `start` outside `[0, total)` the run consists of the single line
`Invalid start position` when the listing is non-empty and of the single line
`No packages found` when it is empty; in both cases no pipeline is called and no
statistics are printed. -/
theorem listPackageInfo_start_out_of_range (w : World) (start count : Int)
    (countGithub : Bool) (directory : String) (packages : List DirEntry)
    (hdir : w.ReadDir directory = Except.ok packages)
    (hstart : start < 0 ∨ start ≥ packages.length) :
    (packages ≠ [] →
      listPackageInfo w start count countGithub directory =
        { out := [Event.invalidStart start packages.length], aborted := none }) ∧
    (packages = [] →
      listPackageInfo w start count countGithub directory =
        { out := [Event.noPackagesFound], aborted := none }) ∧
    pipelineCalls (listPackageInfo w start count countGithub directory).out = [] ∧
    ∀ e ∈ (listPackageInfo w start count countGithub directory).out,
      e.isStatistics = false := by
  by_cases hempty : packages = []
  · have hrun := listPackageInfo_of_empty w start count countGithub directory packages hdir
      hempty
    refine ⟨fun h => absurd hempty h, fun _ => hrun, ?_, ?_⟩
    · rw [hrun]; rfl
    · rw [hrun]
      intro e he
      simp only [List.mem_singleton] at he
      subst he
      rfl
  · have hrun := listPackageInfo_of_invalid w start count countGithub directory packages
      hdir hempty hstart
    refine ⟨fun _ => hrun, fun h => absurd h hempty, ?_, ?_⟩
    · rw [hrun]; rfl
    · rw [hrun]
      intro e he
      simp only [List.mem_singleton] at he
      subst he
      rfl

/-- In a directory of five packages, `list 5 2` only prints `Invalid start position`. -/
theorem listPackageInfo_start_out_of_range_witness :
    listPackageInfo fiveWorld 5 2 true "temp-ver" =
      { out := [Event.invalidStart 5 5], aborted := none } :=
  (listPackageInfo_start_out_of_range fiveWorld 5 2 true "temp-ver"
    [dir "p1", dir "p2", dir "p3", dir "p4", dir "p5"] rfl (by decide)).1 (by simp)

/-! ## The denominators of the summary -/

/-- C10 as stated fails when a non-directory lies in range: over `README.md` and the
package directory `zlib`, `list 0 2` runs the pipeline once but prints both ratios with
the denominator 2. -/
theorem listPackageInfo_denominator_counts_files :
    (listPackageInfo readmeWorld 0 2 true "temp-ver").out =
      [Event.listing 1 2 2 "temp-ver",
       Event.packageHeader 2 "zlib", Event.call "zlib" "temp-ver",
       Event.printInfo { pkgName := "zlib", firstVersion := "1.0",
                         firstUrls := ["https://example.com/zlib.tgz"] },
       Event.statsHeader, Event.statsGithub 0 2, Event.statsErrors 0 2] ∧
    (pipelineCalls (listPackageInfo readmeWorld 0 2 true "temp-ver").out).length = 1 := by
  rw [readmeWorld_run]
  exact ⟨rfl, rfl⟩

theorem entriesInRange_length (packages : List DirEntry) (start end_ : Int)
    (h0 : 0 ≤ start) (hle : start ≤ end_) (hlen : end_ ≤ packages.length) :
    ((entriesInRange packages start end_).length : Int) = end_ - start := by
  simp only [entriesInRange, List.length_take, List.length_drop]
  omega

theorem start_le_endIndex (start count total : Int) (h0 : 0 ≤ start) (hlt : start < total)
    (hsum : count < 0 ∨ start + count ≤ maxInt64) : start ≤ endIndex start count total := by
  by_cases hc : count < 0
  · rw [endIndex_of_negative start count total hc]
    exact le_of_lt hlt
  · have hc' : 0 ≤ count := not_lt.mp hc
    have hs : start + count ≤ maxInt64 := by
      rcases hsum with h | h
      · exact absurd h hc
      · exact h
    rw [endIndex_eq_min start count total h0 hc' hs]
    exact le_min (by omega) (le_of_lt hlt)

/-- C10, amended: when `start+count` does not overflow, the denominator of both summary
ratios is `end - start`, the number of all entries of the listing in `[start, end)`,
directories and non-directories alike: the number of pipeline calls plus the number of
non-directory entries in range. -/
theorem listPackageInfo_denominator (w : World) (start count : Int) (directory : String)
    (packages : List DirEntry) (n d : Int)
    (hdir : w.ReadDir directory = Except.ok packages)
    (hlen : (packages.length : Int) ≤ maxInt64)
    (hsum : count < 0 ∨ start + count ≤ maxInt64)
    (hmem : Event.statsGithub n d ∈ (listPackageInfo w start count true directory).out ∨
            Event.statsErrors n d ∈ (listPackageInfo w start count true directory).out) :
    d = endIndex start count packages.length - start ∧
    d = (entriesInRange packages start (endIndex start count packages.length)).length ∧
    d = (pipelineCalls (listPackageInfo w start count true directory).out).length +
        ((entriesInRange packages start (endIndex start count packages.length)).countP
          (fun e => !e.IsDir) : Nat) := by
  have hstat : ∃ e, e ∈ (listPackageInfo w start count true directory).out ∧
      e.isStatistics = true ∧ (e = Event.statsGithub n d ∨ e = Event.statsErrors n d) := by
    rcases hmem with h | h
    · exact ⟨_, h, rfl, Or.inl rfl⟩
    · exact ⟨_, h, rfl, Or.inr rfl⟩
  obtain ⟨e, he, hs, hshape⟩ := hstat
  obtain ⟨h0, hlt, st, hproc, hout, hcases⟩ :=
    listPackageInfo_statistics w start count true directory packages hdir e he hs
  have hd : d = wrapInt64 (endIndex start count packages.length - start) := by
    rcases hshape with h | h
    · subst h
      rcases hcases with h' | h' | h'
      · cases h'
      · injection h' with _ hd
      · cases h'
    · subst h
      rcases hcases with h' | h' | h'
      · cases h'
      · cases h'
      · injection h' with _ hd
  have hle := start_le_endIndex start count packages.length h0 hlt hsum
  have hend := endIndex_le start count packages.length
  have hwrap : wrapInt64 (endIndex start count packages.length - start) =
      endIndex start count packages.length - start :=
    wrapInt64_of_inRange _ (by unfold minInt64; omega) (by omega)
  have hlength := entriesInRange_length packages start _ h0 hle hend
  obtain ⟨_, _, _, h4⟩ := processEntries_completed w directory _ _ _ _ hproc
  have hcalls : pipelineCalls (listPackageInfo w start count true directory).out =
      (numberedDirs (entriesInRange packages start (endIndex start count packages.length))
        start).map Prod.snd := by
    rw [hout]
    have hi4 : pipelineCalls (initialState start (endIndex start count packages.length)
        packages.length directory).out = [] := rfl
    rw [hi4, List.nil_append] at h4
    rw [← h4]
    simp [pipelineCalls, List.filterMap_append]
  refine ⟨by rw [hd, hwrap], by rw [hd, hwrap, hlength], ?_⟩
  rw [hd, hwrap, ← hlength, hcalls, List.length_map, numberedDirs_length]
  have hsplit := List.length_eq_countP_add_countP (fun e : DirEntry => e.IsDir)
    (entriesInRange packages start (endIndex start count packages.length))
  have hneg : (entriesInRange packages start (endIndex start count packages.length)).countP
        (fun e => !e.IsDir) =
      (entriesInRange packages start (endIndex start count packages.length)).countP
        (fun e => ¬ (e.IsDir = true)) := by
    congr 1
    funext e
    cases e.IsDir <;> simp
  rw [hneg]
  exact_mod_cast hsplit

/-- In `githubWorld`, `--all` prints the denominator 7 for six pipeline calls and one
regular file. -/
theorem listPackageInfo_denominator_witness :
    (7 : Int) = endIndex 0 (-1) githubEntries.length - 0 ∧
    (7 : Int) = (entriesInRange githubEntries 0 (endIndex 0 (-1) githubEntries.length)).length ∧
    (7 : Int) =
      (pipelineCalls (listPackageInfo githubWorld 0 (-1) true "temp-ver").out).length +
        ((entriesInRange githubEntries 0 (endIndex 0 (-1) githubEntries.length)).countP
          (fun e => !e.IsDir) : Nat) :=
  listPackageInfo_denominator githubWorld 0 (-1) "temp-ver" githubEntries 1 7 rfl
    (by decide) (Or.inl (by decide)) (Or.inl (by rw [githubWorld_run]; simp))

end ConanDetect
